import Mathlib

/-!
# Verification of the TPC (Thoughts / Plans / Changelog) server

Shallow embedding of the data model and operations of the TPC server
(`tpc_server.py`, `main.py`, `auth.py`).  The relational store is modeled as
lists of rows; a handler is a pure function from inputs and the persistent
database state to a result together with the new persistent state.  A handler
that returns early without committing leaves the persistent state unchanged
(the session is closed without commit, so the transaction is rolled back).

Machine conventions:
* SQLite integer autoincrement primary keys are `Nat` counters starting at 1.
* `uuid4()` string ids are modeled as a fresh-`Nat` supply (`nextId` counter);
  only freshness matters for the verified properties.
* `datetime.utcnow()` / `func.now()` timestamps are `Nat` values passed as a
  `now` argument.
* A `SELECT` without `ORDER BY` returns the rows in table (insertion) order,
  which the list order of the embedded table represents.
* SQLite foreign keys are not enforced (the engines are created without
  `PRAGMA foreign_keys=ON`), so inserts referencing missing rows succeed.
-/

namespace TpcServer

/-- Row of the `thoughts` table in `tpc_server.py`. -/
structure TThought where
  id : Nat
  content : String
  agent_signature : String
  created_at : Nat
deriving Repr, DecidableEq

/-- Row of the `plans` table in `tpc_server.py`. -/
structure TPlan where
  id : Nat
  title : String
  description : String
  agent_signature : String
  created_at : Nat
deriving Repr, DecidableEq

/-- Row of the `changes` table in `tpc_server.py` (`plan_id` is a foreign key
to `plans.id`). -/
structure TChange where
  id : Nat
  description : String
  agent_signature : String
  created_at : Nat
  plan_id : Nat
deriving Repr, DecidableEq

/-- Persistent database state of `tpc_server.py`: the three tables, the
`thought_plan_association` join table (pairs `(thought_id, plan_id)`, no
primary key, duplicates possible), and the autoincrement counters. -/
structure DB where
  thoughts : List TThought
  plans : List TPlan
  changes : List TChange
  assoc : List (Nat × Nat)
  nextThoughtId : Nat
  nextPlanId : Nat
  nextChangeId : Nat
deriving Repr, DecidableEq

def DB.empty : DB := ⟨[], [], [], [], 1, 1, 1⟩

/-- `(await db.execute(sa.select(Plan).filter(Plan.id == plan_id))).scalars().first()` -/
def findPlan (db : DB) (pid : Nat) : Option TPlan :=
  db.plans.find? (fun p => p.id == pid)

/-- `(await db.execute(sa.select(Thought).filter(Thought.id == thought_id))).scalars().first()` -/
def findThought (db : DB) (tid : Nat) : Option TThought :=
  db.thoughts.find? (fun t => t.id == tid)

/-- Return value of an MCP tool in `tpc_server.py`: a success dict carrying the
new id, a plain success-message dict, or an error dict with a status code. -/
inductive ToolResult where
  | ok (id : Nat) (message : String)
  | msg (text : String)
  | err (detail : String) (status_code : Nat)
deriving Repr, DecidableEq

/-- First element of `pids` that does not resolve to a plan row, mirroring the
order in which the creation loops issue their lookups. -/
def firstMissingPlan (db : DB) : List Nat → Option Nat
  | [] => none
  | p :: rest => if (findPlan db p).isSome then firstMissingPlan db rest else some p

/-- `create_thought` tool (`tpc_server.py` lines 160-186).  The handler adds the
thought, then resolves each of `plan_ids` in order; at the first missing plan it
returns a 404 error dict without committing, so the session rollback leaves the
persistent state unchanged.  On success it commits the thought row together
with one association row per entry of `plan_ids` (duplicates kept: the join
table has no primary key). -/
def create_thought (content sig : String) (plan_ids : Option (List Nat))
    (now : Nat) (db : DB) : ToolResult × DB :=
  let pids := plan_ids.getD []
  match firstMissingPlan db pids with
  | some pid => (.err s!"Plan with ID {pid} not found" 404, db)
  | none =>
      let tid := db.nextThoughtId
      (.ok tid "Thought created successfully",
       { db with
           thoughts := db.thoughts ++ [⟨tid, content, sig, now⟩]
           assoc := db.assoc ++ pids.map (fun p => (tid, p))
           nextThoughtId := tid + 1 })

/-- `create_change` tool (`tpc_server.py` lines 308-336): validates that the
referenced plan exists, then inserts and commits the change row. -/
def create_change (descr sig : String) (plan_id : Nat) (now : Nat)
    (db : DB) : ToolResult × DB :=
  match findPlan db plan_id with
  | none => (.err s!"Plan with ID {plan_id} does not exist" 404, db)
  | some _ =>
      let cid := db.nextChangeId
      (.ok cid "Change created successfully",
       { db with
           changes := db.changes ++ [⟨cid, descr, sig, now, plan_id⟩]
           nextChangeId := cid + 1 })

/-- `associate_thought_with_plan` tool (`tpc_server.py` lines 379-402): both
ids must exist (404 naming the missing one otherwise); an already-linked pair
is reported as a success message without touching the join table; otherwise
one association row is appended and committed. -/
def associate_thought_with_plan (tid pid : Nat) (db : DB) : ToolResult × DB :=
  match findThought db tid with
  | none => (.err s!"Thought with ID {tid} not found" 404, db)
  | some _ =>
      match findPlan db pid with
      | none => (.err s!"Plan with ID {pid} not found" 404, db)
      | some _ =>
          if (tid, pid) ∈ db.assoc then
            (.msg s!"Thought {tid} is already associated with Plan {pid}", db)
          else
            (.msg s!"Thought {tid} successfully associated with Plan {pid}",
             { db with assoc := db.assoc ++ [(tid, pid)] })

/-- `disassociate_thought_from_plan` tool (`tpc_server.py` lines 404-427):
both ids must exist; a non-linked pair is reported as a success message with
no write; otherwise the association rows for the pair are deleted (the
relationship removal deletes the matching join rows). -/
def disassociate_thought_from_plan (tid pid : Nat) (db : DB) : ToolResult × DB :=
  match findThought db tid with
  | none => (.err s!"Thought with ID {tid} not found" 404, db)
  | some _ =>
      match findPlan db pid with
      | none => (.err s!"Plan with ID {pid} not found" 404, db)
      | some _ =>
          if (tid, pid) ∈ db.assoc then
            (.msg s!"Thought {tid} successfully disassociated from Plan {pid}",
             { db with assoc := db.assoc.filter (fun ab => ab != (tid, pid)) })
          else
            (.msg s!"Thought {tid} is not associated with Plan {pid}", db)

/-- Item of the `thoughts://list` resource response. -/
structure ThoughtView where
  id : Nat
  content : String
  agent_signature : String
  created_at : Nat
  plan_ids : List Nat
deriving Repr, DecidableEq

/-- `list_thoughts` resource (`tpc_server.py` lines 188-207).  The query is
`sa.select(Thought)` with no `ORDER BY`: SQLite returns the rows in table
(insertion) order, represented by the list order of the embedded table. -/
def list_thoughts (db : DB) : List ThoughtView :=
  db.thoughts.map (fun t =>
    ⟨t.id, t.content, t.agent_signature, t.created_at,
     (db.assoc.filter (fun ab => ab.1 == t.id)).map (fun ab => ab.2)⟩)

end TpcServer

namespace MainApp

/-- Row of the `thoughts` table in `main.py` (string uuid primary key modeled
as a supplied `Nat`). -/
structure MThought where
  id : Nat
  content : String
  agent_signature : String
  created_at : Nat
  status : String
deriving Repr, DecidableEq

/-- Row of the `thought_plan_association` table in `main.py`. -/
structure MAssoc where
  thought_id : Nat
  plan_id : Nat
  created_at : Nat
  agent_signature : String
deriving Repr, DecidableEq

/-- Row of the `plans` table in `main.py`. -/
structure MPlan where
  id : Nat
  title : String
  description : String
  agent_signature : String
  created_at : Nat
  version : String
  status : String
deriving Repr, DecidableEq

/-- Row of the `changes` table in `main.py`. -/
structure MChange where
  id : Nat
  description : String
  agent_signature : String
  created_at : Nat
  plan_id : Nat
deriving Repr, DecidableEq

/-- Persistent database state of `main.py`.  `nextId` is the fresh-id supply
standing for `uuid.uuid4()`. -/
structure MDB where
  thoughts : List MThought
  plans : List MPlan
  changes : List MChange
  assocs : List MAssoc
  nextId : Nat
deriving Repr, DecidableEq

def MDB.empty : MDB := ⟨[], [], [], [], 0⟩

def planExists (db : MDB) (pid : Nat) : Bool :=
  db.plans.any (fun p => p.id == pid)

def thoughtExists (db : MDB) (tid : Nat) : Bool :=
  db.thoughts.any (fun t => t.id == tid)

/-- Python `a or b` on an optional string: `None` and the empty string are
falsy and fall through to the default. -/
def orDefault (s : Option String) (d : String) : String :=
  match s with
  | none => d
  | some s => if s == "" then d else s

/-- Return value of a REST endpoint in `main.py`. -/
inductive ApiResult where
  | ok (id : Nat) (message : String)
  | httpError (status_code : Nat) (detail : String)
deriving Repr, DecidableEq

/-- `POST /api/thoughts` handler `create_thought` (`main.py` lines 945-999).
The default local user stub makes `current_user.username = "local_user"`.
The thought row is always inserted; each entry of `plan_ids` is looked up and,
when the plan exists, one association row is added, while a missing plan id is
only logged as a warning and skipped.  The whole session is then committed and
a success response returned. -/
def createThoughtApi (content : String) (agent_signature : Option String)
    (plan_ids : Option (List Nat)) (now : Nat) (db : MDB) : ApiResult × MDB :=
  let sig := orDefault agent_signature "local_user"
  let tid := db.nextId
  let pids := plan_ids.getD []
  let newAssocs := (pids.filter (fun p => planExists db p)).map
    (fun p => MAssoc.mk tid p now sig)
  (.ok tid "Thought created successfully",
   { db with
       thoughts := db.thoughts ++ [⟨tid, content, sig, now, "active"⟩]
       assocs := db.assocs ++ newAssocs
       nextId := tid + 1 })

/-- First element of `pids` with no matching plan row, in loop order. -/
def firstMissingPlanM (db : MDB) : List Nat → Option Nat
  | [] => none
  | p :: rest => if planExists db p then firstMissingPlanM db rest else some p

/-- First element of `tids` with no matching thought row, in loop order. -/
def firstMissingThoughtM (db : MDB) : List Nat → Option Nat
  | [] => none
  | t :: rest => if thoughtExists db t then firstMissingThoughtM db rest else some t

/-- `add_thought` MCP tool (`main.py` lines 1623-1674).  The result is the
string the tool returns.  The thought and associations are staged; at the
first missing plan id the tool returns an error string without committing, so
the rollback on session close leaves the persistent state unchanged. -/
def addThought (content sig : String) (plan_ids : Option (List Nat))
    (now : Nat) (db : MDB) : String × MDB :=
  let pids := plan_ids.getD []
  match firstMissingPlanM db pids with
  | some pid => (s!"Error: Plan with ID {pid} not found", db)
  | none =>
      let tid := db.nextId
      (s!"Successfully added thought: {tid}",
       { db with
           thoughts := db.thoughts ++ [⟨tid, content, sig, now, "active"⟩]
           assocs := db.assocs ++ pids.map (fun p => MAssoc.mk tid p now sig)
           nextId := tid + 1 })

/-- `create_plan` MCP tool (`main.py` lines 1728-1783): symmetric to
`add_thought` with `thought_ids`. -/
def createPlanTool (title descr sig : String) (thought_ids : Option (List Nat))
    (now : Nat) (db : MDB) : String × MDB :=
  let tids := thought_ids.getD []
  match firstMissingThoughtM db tids with
  | some tid => (s!"Error: Thought with ID {tid} not found", db)
  | none =>
      let pid := db.nextId
      (s!"Successfully created plan: {pid}",
       { db with
           plans := db.plans ++ [⟨pid, title, descr, sig, now, "1", "active"⟩]
           assocs := db.assocs ++ tids.map (fun t => MAssoc.mk t pid now sig)
           nextId := pid + 1 })

/-- `log_change` MCP tool (`main.py` lines 1828-1867): verifies the plan
exists (error string and rollback otherwise), then inserts and commits the
change row referencing that plan. -/
def logChange (descr sig : String) (plan_id : Nat) (now : Nat)
    (db : MDB) : String × MDB :=
  if planExists db plan_id then
    let cid := db.nextId
    (s!"Successfully logged change: {cid}",
     { db with
         changes := db.changes ++ [⟨cid, descr, sig, now, plan_id⟩]
         nextId := cid + 1 })
  else
    (s!"Error: Plan with ID {plan_id} not found", db)

/-- Input item of the `log_changes_bulk` MCP tool. -/
structure BulkChangeItem where
  description : String
  agent_signature : String
  plan_id : Nat
deriving Repr, DecidableEq

/-- Per-item body of the `log_changes_bulk` loop (`main.py` lines 1789-1826):
a missing plan appends an error entry and `continue`s; otherwise the change is
staged and a logged entry appended. -/
def logChangesBulkStep (now : Nat) (acc : List String × MDB)
    (it : BulkChangeItem) : List String × MDB :=
  if planExists acc.2 it.plan_id then
    let cid := acc.2.nextId
    (acc.1 ++ [s!"Logged change: {cid}"],
     { acc.2 with
         changes := acc.2.changes ++
           [⟨cid, it.description, it.agent_signature, now, it.plan_id⟩]
         nextId := cid + 1 })
  else
    (acc.1 ++ [s!"Error: Plan with ID {it.plan_id} not found"], acc.2)

/-- `log_changes_bulk` MCP tool: best-effort loop over the items, single
commit at the end. -/
def logChangesBulk (items : List BulkChangeItem) (now : Nat)
    (db : MDB) : List String × MDB :=
  items.foldl (logChangesBulkStep now) ([], db)

/-- Expected result list of `log_changes_bulk` against a fixed plans table:
one "Logged change" entry per item whose plan exists (consuming a fresh id),
one "Error" entry per item whose plan is missing. -/
def bulkResultEntries (plans : List MPlan) (nid : Nat) :
    List BulkChangeItem → List String
  | [] => []
  | it :: rest =>
      if plans.any (fun p => p.id == it.plan_id) then
        s!"Logged change: {nid}" :: bulkResultEntries plans (nid + 1) rest
      else
        s!"Error: Plan with ID {it.plan_id} not found" ::
          bulkResultEntries plans nid rest

/-- Change rows that `log_changes_bulk` commits against a fixed plans table:
one row per item whose plan exists, skipping the items whose plan is
missing. -/
def bulkNewChanges (plans : List MPlan) (nid now : Nat) :
    List BulkChangeItem → List MChange
  | [] => []
  | it :: rest =>
      if plans.any (fun p => p.id == it.plan_id) then
        ⟨nid, it.description, it.agent_signature, now, it.plan_id⟩ ::
          bulkNewChanges plans (nid + 1) now rest
      else
        bulkNewChanges plans nid now rest

/-- Number of items of a `log_changes_bulk` call whose plan exists. -/
def bulkSuccCount (plans : List MPlan) (items : List BulkChangeItem) : Nat :=
  (items.filter (fun it => plans.any (fun p => p.id == it.plan_id))).length

/-- Cascade body of the `bulk_delete_plans` loop (`main.py` lines 1296-1321):
for one plan id, delete its association rows, then its changes, then the plan
row itself. -/
def deletePlanCascade (db : MDB) (pid : Nat) : MDB :=
  { db with
      assocs := db.assocs.filter (fun a => a.plan_id != pid)
      changes := db.changes.filter (fun c => c.plan_id != pid)
      plans := db.plans.filter (fun p => p.id != pid) }

/-- `POST /api/plans/bulk-delete` handler `bulk_delete_plans`: cascades the
deletes per id and counts the deleted plan rows, committing at the end. -/
def bulkDeletePlans (ids : List Nat) (db : MDB) : Nat × MDB :=
  ids.foldl
    (fun acc pid =>
      (acc.1 + (acc.2.plans.filter (fun p => p.id == pid)).length,
       deletePlanCascade acc.2 pid))
    (0, db)

def assocPairExists (db : MDB) (tid pid : Nat) : Bool :=
  db.assocs.any (fun a => a.thought_id == tid && a.plan_id == pid)

/-- `POST /api/thoughts/bulk-associate` handler `bulk_associate_thoughts`
(`main.py` lines 1362-1391): for every `(thought_id, plan_id)` pair of the two
id lists, insert an association row unless one already exists.  Neither the
thought id nor the plan id is checked for existence. -/
def bulkAssociateThoughts (source_ids target_ids : List Nat) (now : Nat)
    (db : MDB) : Nat × MDB :=
  source_ids.foldl
    (fun acc tid =>
      target_ids.foldl
        (fun (acc2 : Nat × MDB) pid =>
          if assocPairExists acc2.2 tid pid then acc2
          else
            (acc2.1 + 1,
             { acc2.2 with
                 assocs := acc2.2.assocs ++ [⟨tid, pid, now, "local_user"⟩] }))
        acc)
    (0, db)

/-- Ordered insert for a descending sort on `created_at`.  Stable: a row is
placed before the first already-sorted row whose timestamp is `≤` its own, so
rows with equal timestamps keep their table order. -/
def insertByTsDesc (t : MThought) : List MThought → List MThought
  | [] => [t]
  | h :: rest =>
      if h.created_at ≤ t.created_at then t :: h :: rest
      else h :: insertByTsDesc t rest

/-- `ORDER BY created_at DESC` over the thoughts table.  The query has no
further sort key, so the order of rows with equal timestamps is left to the
engine; the embedding resolves it as the stable (table) order. -/
def sortByTsDesc : List MThought → List MThought
  | [] => []
  | h :: rest => insertByTsDesc h (sortByTsDesc rest)

/-- Response of `GET /api/thoughts`. -/
structure PageResult where
  data : List MThought
  total : Nat
  page : Nat
  limit : Nat
deriving Repr, DecidableEq

/-- `GET /api/thoughts` handler `get_all_thoughts` (`main.py` lines 759-784):
`ORDER BY created_at DESC`, then `OFFSET (page-1)*limit LIMIT limit`. -/
def getAllThoughts (page limit : Nat) (db : MDB) : PageResult :=
  ⟨((sortByTsDesc db.thoughts).drop ((page - 1) * limit)).take limit,
   db.thoughts.length, page, limit⟩

end MainApp

namespace Auth

/-- Outcome of `SignatureAuth.__call__` (`auth.py` lines 36-103): the agent id
on success, or an HTTP error with status code and detail. -/
inductive SigResult where
  | ok (agent_id : String)
  | err (status_code : Nat) (detail : String)
deriving Repr, DecidableEq

/-- A request as seen by `SignatureAuth`: method, path, decoded body, and the
bearer credential extracted by `HTTPBearer` (`none` when the Authorization
header is missing or not a Bearer scheme, in which case `HTTPBearer` itself
rejects with 403). -/
structure SigRequest where
  method : String
  path : String
  body : String
  credentials : Option String
deriving Repr, DecidableEq

/-- Python `credentials.split(<colon>, 1)` unpacked into two parts: split at
the first colon, `none` when the string contains no colon. -/
def splitFirstColonAux : List Char → Option (List Char × List Char)
  | [] => none
  | c :: rest =>
      if c = ':' then some ([], rest)
      else (splitFirstColonAux rest).map (fun ab => (c :: ab.1, ab.2))

def splitFirstColon (s : String) : Option (String × String) :=
  (splitFirstColonAux s.data).map (fun ab => (String.mk ab.1, String.mk ab.2))

/-- `_verify_signature` payload `f"{method}{path}{body}"`, where the body is
read only for POST/PUT/PATCH requests and is empty otherwise. -/
def sigPayload (req : SigRequest) : String :=
  req.method ++ req.path ++
    (if req.method ∈ ["POST", "PUT", "PATCH"] then req.body else "")

/-- `SignatureAuth.__call__`: the `AGENT_SECRET_*` table is `secrets`;
`hmacHex secret payload` stands for the hex HMAC-SHA256 digest from the
`hmac`/`hashlib` library, and `hmac.compare_digest` is string equality. -/
def signatureAuth (hmacHex : String → String → String)
    (secrets : List (String × String)) (req : SigRequest) : SigResult :=
  match req.credentials with
  | none => .err 403 "Not authenticated"
  | some cred =>
      match splitFirstColon cred with
      | none => .err 401 "Invalid credential format"
      | some (aid, sig) =>
          match secrets.lookup aid with
          | none => .err 401 "Unknown agent ID"
          | some secret =>
              if sig == hmacHex secret (sigPayload req) then .ok aid
              else .err 401 "Invalid signature"

/-- `users` table row (fields used by the authentication chain). -/
structure UserRow where
  id : String
  username : String
  role : String
deriving Repr, DecidableEq

/-- `api_keys` table row; `revoked` is `revoked_at IS NOT NULL`. -/
structure ApiKeyRow where
  key_hash : String
  user_id : String
  role : String
  revoked : Bool
deriving Repr, DecidableEq

/-- Environment of the hybrid gate: the two library verifiers are parameters
(`verifyKey` for `pwd_context.verify`, `decodeJwt` for `jwt.decode` returning
`none` on `JWTError` and otherwise the optional `sub` claim), plus the user
and API-key tables. -/
structure AuthEnv where
  verifyKey : String → String → Bool
  decodeJwt : String → Option (Option String)
  apiKeys : List ApiKeyRow
  users : List UserRow

def findUserById (env : AuthEnv) (uid : String) : Option UserRow :=
  env.users.find? (fun u => u.id == uid)

def findUserByName (env : AuthEnv) (name : String) : Option UserRow :=
  env.users.find? (fun u => u.username == name)

/-- Loop body of `validate_api_key` (`auth.py` lines 249-267) over the
non-revoked key rows: the first row whose hash verifies against the presented
key and whose user exists wins; a verified row with a missing user is skipped
and the loop continues. -/
def validateApiKeyLoop (env : AuthEnv) (plain : String) :
    List ApiKeyRow → Option UserRow
  | [] => none
  | k :: rest =>
      if env.verifyKey plain k.key_hash then
        match findUserById env k.user_id with
        | some u => some u
        | none => validateApiKeyLoop env plain rest
      else validateApiKeyLoop env plain rest

/-- A request as seen by `get_current_user_hybrid`. -/
structure HybridRequest where
  state_agent_id : Option String
  method : String
  path : String
  api_key : Option String
  authorization : Option String
  cookie_token : Option String
deriving Repr, DecidableEq

/-- `validate_api_key` as used inside the hybrid chain, where its 401 errors
(`Missing API key` / `Invalid API key`) are caught: only success matters. -/
def validateApiKey (env : AuthEnv) (req : HybridRequest) : Option UserRow :=
  match req.api_key with
  | none => none
  | some plain =>
      validateApiKeyLoop env plain (env.apiKeys.filter (fun k => !k.revoked))

/-- `get_current_user` (`auth.py` lines 210-234) applied to a raw token, with
its 401 errors caught by the hybrid chain: decode, read `sub`, look the user
up by username. -/
def getCurrentUserTok (env : AuthEnv) (token : String) : Option UserRow :=
  match env.decodeJwt token with
  | none => none
  | some none => none
  | some (some username) => findUserByName env username

/-- Bearer-token step of the hybrid chain: the Authorization header must be
present and start with the Bearer scheme, then the remainder is verified as a
token. -/
def bearerUser (env : AuthEnv) (req : HybridRequest) : Option UserRow :=
  match req.authorization with
  | none => none
  | some t =>
      if t.startsWith "Bearer " then getCurrentUserTok env (t.drop 7) else none

/-- Authenticated principal produced by the hybrid gate. -/
inductive Principal where
  | agent (id : String)
  | guest
  | user (username role : String)
deriving Repr, DecidableEq

/-- Outcome of `get_current_user_hybrid`: a principal, or an HTTP rejection. -/
inductive HybridResult where
  | ok (p : Principal)
  | reject (status_code : Nat) (detail : String)
deriving Repr, DecidableEq

/-- `public_paths` list of `get_current_user_hybrid`. -/
def publicPaths : List String :=
  ["/", "/thoughts", "/plans", "/changes", "/api/health", "/api-keys"]

/-- Tail of `get_current_user_hybrid` (`auth.py` lines 269-325) after the
agent-id check: guest for public GET paths, then API key, then bearer token,
then the cookie access token, then the final 401. -/
def hybridNoAgent (env : AuthEnv) (req : HybridRequest) : HybridResult :=
  if publicPaths.contains req.path && req.method == "GET" then
    .ok .guest
  else
    match validateApiKey env req with
    | some u => .ok (.user u.username u.role)
    | none =>
        match bearerUser env req with
        | some u => .ok (.user u.username u.role)
        | none =>
            match req.cookie_token with
            | some ct =>
                match getCurrentUserTok env ct with
                | some u => .ok (.user u.username u.role)
                | none => .reject 401 "Authentication failed"
            | none => .reject 401 "Authentication failed"

/-- `get_current_user_hybrid` (`auth.py` lines 269-325).  A pre-set
`request.state.agent_id` is checked first (the empty string is falsy in
Python and is skipped); every later failure falls through to the next method
via the try/except chain. -/
def getCurrentUserHybrid (env : AuthEnv) (req : HybridRequest) : HybridResult :=
  match req.state_agent_id with
  | some aid => if aid == "" then hybridNoAgent env req else .ok (.agent aid)
  | none => hybridNoAgent env req

/-- Spec-side reformulation (§4.3 / §9): one authenticator per method, tried
in a fixed order; each is an independent function of the request. -/
def checkAgent (req : HybridRequest) : Option Principal :=
  match req.state_agent_id with
  | some aid => if aid == "" then none else some (.agent aid)
  | none => none

def checkPublicGuest (req : HybridRequest) : Option Principal :=
  if publicPaths.contains req.path && req.method == "GET" then some .guest
  else none

def checkApiKey (env : AuthEnv) (req : HybridRequest) : Option Principal :=
  (validateApiKey env req).map (fun u => .user u.username u.role)

def checkBearer (env : AuthEnv) (req : HybridRequest) : Option Principal :=
  (bearerUser env req).map (fun u => .user u.username u.role)

def checkCookie (env : AuthEnv) (req : HybridRequest) : Option Principal :=
  (req.cookie_token.bind (getCurrentUserTok env)).map
    (fun u => .user u.username u.role)

/-- First non-`none` result of a list of authenticator outcomes. -/
def firstSome : List (Option Principal) → Option Principal
  | [] => none
  | o :: rest =>
      match o with
      | some p => some p
      | none => firstSome rest

/-- Spec-side gate: an ordered list of authenticators, first success wins,
single pass, constant rejection message that names no individual method. -/
def hybridChainSpec (env : AuthEnv) (req : HybridRequest) : HybridResult :=
  match firstSome [checkAgent req, checkPublicGuest req, checkApiKey env req,
                   checkBearer env req, checkCookie env req] with
  | some p => .ok p
  | none => .reject 401 "Authentication failed"

end Auth

namespace Cursor

/-- Modelled from the spec: `src/` has no cursor-paginated read — the
repository revision the tests import (`ThoughtRepository.get_with_cursor`) is
not in the repository snapshot.  A listable entity is reduced to its sort key:
`ts` (creation timestamp) and `rid` (unique id), listed newest-first by
`(timestamp desc, id)` per spec §3/§4.1. -/
structure Row where
  ts : Nat
  rid : Nat
deriving Repr, DecidableEq

def rkey (r : Row) : Nat × Nat := (r.ts, r.rid)

/-- `a` comes strictly before `b` in the newest-first listing order:
larger timestamp first, ids ascending on equal timestamps. -/
def kLt (a b : Nat × Nat) : Bool :=
  b.1 < a.1 || (a.1 == b.1 && a.2 < b.2)

def keyLe (a b : Row) : Bool :=
  kLt (rkey a) (rkey b) || rkey a == rkey b

/-- Ordered insert for the newest-first listing order. -/
def insertRow (a : Row) : List Row → List Row
  | [] => [a]
  | b :: l => if keyLe a b then a :: b :: l else b :: insertRow a l

def sortRows : List Row → List Row
  | [] => []
  | a :: l => insertRow a (sortRows l)

/-- Modelled from the spec: `get_all(limit=∞)` — the full listing, ordered
`(timestamp desc, id)`. -/
def get_all (T : List Row) : List Row := sortRows T

/-- Rows lying strictly after the cursor in the listing order (the whole
listing when the cursor is null). -/
def afterCursor (c : Option (Nat × Nat)) (l : List Row) : List Row :=
  match c with
  | none => l
  | some k => l.filter (fun r => kLt k (rkey r))

/-- One cursor page: the items and the opaque `next_cursor` token (the
`(timestamp, id)` sort key of the last item returned, null when the listing
is exhausted). -/
structure CPage where
  items : List Row
  next_cursor : Option (Nat × Nat)
deriving Repr, DecidableEq

def pageOf (l : List Row) (n : Nat) (c : Option (Nat × Nat)) : CPage :=
  let s := afterCursor c l
  ⟨s.take n, if s.length ≤ n then none else (s.take n).getLast?.map rkey⟩

/-- Modelled from the spec: `get_with_cursor(limit, cursor)` — up to `limit`
rows strictly after the cursor in the listing order, plus the next cursor. -/
def get_with_cursor (T : List Row) (n : Nat) (c : Option (Nat × Nat)) : CPage :=
  pageOf (sortRows T) n c

/-- Client loop following `next_cursor` until null, concatenating the pages;
`fuel` bounds the number of fetches. -/
def collectGo (l : List Row) (n : Nat) : Nat → Option (Nat × Nat) → List Row
  | 0, _ => []
  | fuel + 1, c =>
      let p := pageOf l n c
      match p.next_cursor with
      | none => p.items
      | some k => p.items ++ collectGo l n fuel (some k)

def collectPages (T : List Row) (n fuel : Nat) : List Row :=
  collectGo (sortRows T) n fuel none

/-- Strictly sorted in the newest-first listing order. -/
def StrictSorted (l : List Row) : Prop :=
  l.Pairwise (fun a b => kLt (rkey a) (rkey b) = true)

end Cursor

/-! ## Helper lemmas -/

namespace MainApp

theorem foldlCascade_assocs_sub {a : MAssoc} (ids : List Nat) (db : MDB)
    (h : a ∈ (ids.foldl deletePlanCascade db).assocs) : a ∈ db.assocs := by
  induction ids generalizing db with
  | nil => exact h
  | cons q rest ih =>
      have h2 := ih (deletePlanCascade db q) h
      simp only [deletePlanCascade] at h2
      exact (List.mem_filter.mp h2).1

theorem foldlCascade_changes_sub {c : MChange} (ids : List Nat) (db : MDB)
    (h : c ∈ (ids.foldl deletePlanCascade db).changes) : c ∈ db.changes := by
  induction ids generalizing db with
  | nil => exact h
  | cons q rest ih =>
      have h2 := ih (deletePlanCascade db q) h
      simp only [deletePlanCascade] at h2
      exact (List.mem_filter.mp h2).1

theorem foldlCascade_plans_sub {p : MPlan} (ids : List Nat) (db : MDB)
    (h : p ∈ (ids.foldl deletePlanCascade db).plans) : p ∈ db.plans := by
  induction ids generalizing db with
  | nil => exact h
  | cons q rest ih =>
      have h2 := ih (deletePlanCascade db q) h
      simp only [deletePlanCascade] at h2
      exact (List.mem_filter.mp h2).1

theorem foldlCascade_clears (ids : List Nat) (db : MDB) (pid : Nat)
    (h : pid ∈ ids) :
    (∀ a ∈ (ids.foldl deletePlanCascade db).assocs, a.plan_id ≠ pid) ∧
    (∀ c ∈ (ids.foldl deletePlanCascade db).changes, c.plan_id ≠ pid) ∧
    (∀ p ∈ (ids.foldl deletePlanCascade db).plans, p.id ≠ pid) := by
  induction ids generalizing db with
  | nil => cases h
  | cons q rest ih =>
      rcases List.mem_cons.mp h with hq | hrest
      · subst hq
        refine ⟨?_, ?_, ?_⟩
        · intro a ha
          have h2 := foldlCascade_assocs_sub rest (deletePlanCascade db pid) ha
          simp only [deletePlanCascade] at h2
          have := (List.mem_filter.mp h2).2
          simpa using this
        · intro c hc
          have h2 := foldlCascade_changes_sub rest (deletePlanCascade db pid) hc
          simp only [deletePlanCascade] at h2
          have := (List.mem_filter.mp h2).2
          simpa using this
        · intro p hp
          have h2 := foldlCascade_plans_sub rest (deletePlanCascade db pid) hp
          simp only [deletePlanCascade] at h2
          have := (List.mem_filter.mp h2).2
          simpa using this
      · exact ih (deletePlanCascade db q) hrest

theorem bulkDeletePlans_state (ids : List Nat) (db : MDB) (c : Nat) :
    (ids.foldl
        (fun acc pid =>
          (acc.1 + (acc.2.plans.filter (fun p => p.id == pid)).length,
           deletePlanCascade acc.2 pid))
        (c, db)).2 = ids.foldl deletePlanCascade db := by
  induction ids generalizing c db with
  | nil => rfl
  | cons q rest ih => exact ih _ _

end MainApp

/-! ## Claims -/

/-- C2: creating a Change succeeds exactly when the referenced plan id
resolves to an existing Plan; on success the stored Change row references
exactly that plan (for both the `create_change` MCP tool of `tpc_server.py`
and the `log_change` MCP tool of `main.py`); when the plan is missing the
operation fails with a not-found error and leaves the state unchanged. -/
theorem claim_C2 (descr sig : String) (pid now : Nat)
    (db : TpcServer.DB) (mdb : MainApp.MDB) :
    ((TpcServer.findPlan db pid).isSome = true →
      TpcServer.create_change descr sig pid now db =
        (.ok db.nextChangeId "Change created successfully",
         { db with
             changes := db.changes ++ [⟨db.nextChangeId, descr, sig, now, pid⟩]
             nextChangeId := db.nextChangeId + 1 })) ∧
    (TpcServer.findPlan db pid = none →
      TpcServer.create_change descr sig pid now db =
        (.err s!"Plan with ID {pid} does not exist" 404, db)) ∧
    (MainApp.planExists mdb pid = true →
      MainApp.logChange descr sig pid now mdb =
        (s!"Successfully logged change: {mdb.nextId}",
         { mdb with
             changes := mdb.changes ++ [⟨mdb.nextId, descr, sig, now, pid⟩]
             nextId := mdb.nextId + 1 })) ∧
    (MainApp.planExists mdb pid = false →
      MainApp.logChange descr sig pid now mdb =
        (s!"Error: Plan with ID {pid} not found", mdb)) := by
  refine ⟨?_, ?_, ?_, ?_⟩
  · intro h
    rcases Option.isSome_iff_exists.mp h with ⟨p, hp⟩
    simp [TpcServer.create_change, hp]
  · intro h
    simp [TpcServer.create_change, h]
  · intro h
    simp [MainApp.logChange, h]
  · intro h
    simp [MainApp.logChange, h]

/-- Witness for C2 at a one-plan database and at the empty database. -/
theorem claim_C2_witness :
    TpcServer.create_change "d" "s" 1 5
        (⟨[], [⟨1, "t", "dd", "sg", 0⟩], [], [], 1, 2, 1⟩ : TpcServer.DB) =
      (.ok 1 "Change created successfully",
       { (⟨[], [⟨1, "t", "dd", "sg", 0⟩], [], [], 1, 2, 1⟩ : TpcServer.DB) with
           changes := [] ++ [⟨1, "d", "s", 5, 1⟩]
           nextChangeId := 1 + 1 }) ∧
    MainApp.logChange "d" "s" 9 5 MainApp.MDB.empty =
      (s!"Error: Plan with ID 9 not found", MainApp.MDB.empty) :=
  ⟨(claim_C2 "d" "s" 1 5 (⟨[], [⟨1, "t", "dd", "sg", 0⟩], [], [], 1, 2, 1⟩ :
      TpcServer.DB) MainApp.MDB.empty).1 rfl,
   (claim_C2 "d" "s" 9 5 (⟨[], [⟨1, "t", "dd", "sg", 0⟩], [], [], 1, 2, 1⟩ :
      TpcServer.DB) MainApp.MDB.empty).2.2.2 rfl⟩

/-- C3: the thought↔plan associate tool is idempotent for existing ids —
associating an already-linked pair is a no-op success, two identical
associate calls leave exactly one association row for the pair, and
disassociating a non-linked pair is a no-op success. -/
theorem claim_C3 (tid pid : Nat) (db : TpcServer.DB)
    (ht : (TpcServer.findThought db tid).isSome = true)
    (hp : (TpcServer.findPlan db pid).isSome = true) :
    ((tid, pid) ∈ db.assoc →
      TpcServer.associate_thought_with_plan tid pid db =
        (.msg s!"Thought {tid} is already associated with Plan {pid}", db)) ∧
    ((tid, pid) ∉ db.assoc →
      (TpcServer.associate_thought_with_plan tid pid db).1 =
        .msg s!"Thought {tid} successfully associated with Plan {pid}" ∧
      (TpcServer.associate_thought_with_plan tid pid
          (TpcServer.associate_thought_with_plan tid pid db).2).1 =
        .msg s!"Thought {tid} is already associated with Plan {pid}" ∧
      (TpcServer.associate_thought_with_plan tid pid
          (TpcServer.associate_thought_with_plan tid pid db).2).2.assoc.count
        (tid, pid) = 1) ∧
    ((tid, pid) ∉ db.assoc →
      TpcServer.disassociate_thought_from_plan tid pid db =
        (.msg s!"Thought {tid} is not associated with Plan {pid}", db)) := by
  rcases Option.isSome_iff_exists.mp ht with ⟨t, htEq⟩
  rcases Option.isSome_iff_exists.mp hp with ⟨p, hpEq⟩
  refine ⟨?_, ?_, ?_⟩
  · intro hmem
    simp [TpcServer.associate_thought_with_plan, htEq, hpEq, hmem]
  · intro hmem
    have h1 : TpcServer.associate_thought_with_plan tid pid db =
        (.msg s!"Thought {tid} successfully associated with Plan {pid}",
         { db with assoc := db.assoc ++ [(tid, pid)] }) := by
      simp [TpcServer.associate_thought_with_plan, htEq, hpEq, hmem]
    have hmem2 : (tid, pid) ∈ db.assoc ++ [(tid, pid)] := by simp
    have htEq2 : TpcServer.findThought
        { db with assoc := db.assoc ++ [(tid, pid)] } tid = some t := htEq
    have hpEq2 : TpcServer.findPlan
        { db with assoc := db.assoc ++ [(tid, pid)] } pid = some p := hpEq
    refine ⟨by simp [h1], ?_, ?_⟩
    · rw [h1]
      simp [TpcServer.associate_thought_with_plan, htEq2, hpEq2, hmem2]
    · rw [h1]
      simp [TpcServer.associate_thought_with_plan, htEq2, hpEq2, hmem2,
        List.count_append, List.count_eq_zero.mpr hmem]
  · intro hmem
    simp [TpcServer.disassociate_thought_from_plan, htEq, hpEq, hmem]

/-- Witness for C3 at a database with one thought, one plan, and no
associations. -/
theorem claim_C3_witness :
    (TpcServer.associate_thought_with_plan 1 1
        (⟨[⟨1, "c", "sg", 0⟩], [⟨1, "t", "d", "sg", 0⟩], [], [], 2, 2, 1⟩ :
          TpcServer.DB)).1 =
      .msg s!"Thought 1 successfully associated with Plan 1" ∧
    (TpcServer.associate_thought_with_plan 1 1
        (TpcServer.associate_thought_with_plan 1 1
          (⟨[⟨1, "c", "sg", 0⟩], [⟨1, "t", "d", "sg", 0⟩], [], [], 2, 2, 1⟩ :
            TpcServer.DB)).2).1 =
      .msg s!"Thought 1 is already associated with Plan 1" ∧
    (TpcServer.associate_thought_with_plan 1 1
        (TpcServer.associate_thought_with_plan 1 1
          (⟨[⟨1, "c", "sg", 0⟩], [⟨1, "t", "d", "sg", 0⟩], [], [], 2, 2, 1⟩ :
            TpcServer.DB)).2).2.assoc.count (1, 1) = 1 :=
  (claim_C3 1 1
    (⟨[⟨1, "c", "sg", 0⟩], [⟨1, "t", "d", "sg", 0⟩], [], [], 2, 2, 1⟩ :
      TpcServer.DB) rfl rfl).2.1 (by decide)

/-- C8: after a bulk delete of plans, no association row and no change row
referencing any deleted plan id remains, and the plan rows themselves are
gone. -/
theorem claim_C8 (ids : List Nat) (db : MainApp.MDB) (pid : Nat)
    (h : pid ∈ ids) :
    (∀ a ∈ (MainApp.bulkDeletePlans ids db).2.assocs, a.plan_id ≠ pid) ∧
    (∀ c ∈ (MainApp.bulkDeletePlans ids db).2.changes, c.plan_id ≠ pid) ∧
    (∀ p ∈ (MainApp.bulkDeletePlans ids db).2.plans, p.id ≠ pid) := by
  have hs := MainApp.bulkDeletePlans_state ids db 0
  unfold MainApp.bulkDeletePlans
  rw [hs]
  exact MainApp.foldlCascade_clears ids db pid h

/-- Witness for C8: deleting plan 1 clears its association row, its change
row, and the plan row itself. -/
theorem claim_C8_witness :
    ((MainApp.bulkDeletePlans [1]
        (⟨[⟨3, "c", "sg", 0, "active"⟩], [⟨1, "t", "d", "sg", 0, "1", "active"⟩],
          [⟨5, "d", "sg", 0, 1⟩], [⟨3, 1, 0, "sg"⟩], 6⟩ :
          MainApp.MDB)).2.assocs.all (fun a => a.plan_id != 1)) = true ∧
    ((MainApp.bulkDeletePlans [1]
        (⟨[⟨3, "c", "sg", 0, "active"⟩], [⟨1, "t", "d", "sg", 0, "1", "active"⟩],
          [⟨5, "d", "sg", 0, 1⟩], [⟨3, 1, 0, "sg"⟩], 6⟩ :
          MainApp.MDB)).2.changes.all (fun c => c.plan_id != 1)) = true ∧
    ((MainApp.bulkDeletePlans [1]
        (⟨[⟨3, "c", "sg", 0, "active"⟩], [⟨1, "t", "d", "sg", 0, "1", "active"⟩],
          [⟨5, "d", "sg", 0, 1⟩], [⟨3, 1, 0, "sg"⟩], 6⟩ :
          MainApp.MDB)).2.plans.all (fun p => p.id != 1)) = true := by
  have h := claim_C8 [1]
    (⟨[⟨3, "c", "sg", 0, "active"⟩], [⟨1, "t", "d", "sg", 0, "1", "active"⟩],
      [⟨5, "d", "sg", 0, 1⟩], [⟨3, 1, 0, "sg"⟩], 6⟩ : MainApp.MDB) 1
    (by decide)
  refine ⟨List.all_eq_true.mpr ?_, List.all_eq_true.mpr ?_,
    List.all_eq_true.mpr ?_⟩
  · intro a ha
    simpa using h.1 a ha
  · intro c hc
    simpa using h.2.1 c hc
  · intro p hp
    simpa using h.2.2 p hp

/-- Counterexample to C1 as stated: the REST handler `POST /api/thoughts`
(`main.py` `create_thought`) called on an empty database with the
non-existent referenced plan id 7 does NOT fail — it reports success and
commits the thought row (with no association), so a create whose referenced
id does not resolve both succeeds and writes a main row. -/
theorem claim_C1_counterexample :
    MainApp.planExists MainApp.MDB.empty 7 = false ∧
    (MainApp.createThoughtApi "note" none (some [7]) 0 MainApp.MDB.empty).1 =
      MainApp.ApiResult.ok 0 "Thought created successfully" ∧
    (MainApp.createThoughtApi "note" none (some [7]) 0
        MainApp.MDB.empty).2.thoughts =
      [⟨0, "note", "local_user", 0, "active"⟩] ∧
    (MainApp.createThoughtApi "note" none (some [7]) 0
        MainApp.MDB.empty).2.assocs = [] := by
  decide

/-- Counterexample to C4 as stated: the `thoughts://list` resource of
`tpc_server.py` issues no ORDER BY at all, so with two thoughts created at
timestamps 1 < 2 the listing comes back in insertion order `[1, 2]` — the
first listed entity is the oldest, not the newest, and the listing is not
sorted by (timestamp desc, id). -/
theorem claim_C4_counterexample :
    (TpcServer.list_thoughts
        (⟨[⟨1, "a", "sg", 1⟩, ⟨2, "b", "sg", 2⟩], [], [], [], 3, 1, 1⟩ :
          TpcServer.DB)).map TpcServer.ThoughtView.created_at = [1, 2] ∧
    ¬ List.Pairwise (fun a b => b.created_at ≤ a.created_at)
        (TpcServer.list_thoughts
          (⟨[⟨1, "a", "sg", 1⟩, ⟨2, "b", "sg", 2⟩], [], [], [], 3, 1, 1⟩ :
            TpcServer.DB)) := by
  decide

/-- Counterexample to C5 as stated: the bulk associate endpoint
(`POST /api/thoughts/bulk-associate`) inserts an association row for
thought id 3 and plan id 7 on an empty database — neither id resolves to a
row, yet the call succeeds and writes the association. -/
theorem claim_C5_counterexample :
    MainApp.thoughtExists MainApp.MDB.empty 3 = false ∧
    MainApp.planExists MainApp.MDB.empty 7 = false ∧
    (MainApp.bulkAssociateThoughts [3] [7] 0 MainApp.MDB.empty).1 = 1 ∧
    (MainApp.bulkAssociateThoughts [3] [7] 0 MainApp.MDB.empty).2.assocs =
      [⟨3, 7, 0, "local_user"⟩] := by
  decide

namespace TpcServer

theorem firstMissingPlan_some (db : DB) (pids : List Nat)
    (h : ∃ p ∈ pids, findPlan db p = none) :
    ∃ m, firstMissingPlan db pids = some m ∧ findPlan db m = none := by
  induction pids with
  | nil => simp at h
  | cons q rest ih =>
      by_cases hq : (findPlan db q).isSome
      · rcases h with ⟨p, hp, hnone⟩
        rcases List.mem_cons.mp hp with hpq | hpr
        · subst hpq
          rw [hnone] at hq
          simp at hq
        · rcases ih ⟨p, hpr, hnone⟩ with ⟨m, hm1, hm2⟩
          exact ⟨m, by simp [firstMissingPlan, hq, hm1], hm2⟩
      · exact ⟨q, by simp [firstMissingPlan, hq],
          Option.not_isSome_iff_eq_none.mp hq⟩

end TpcServer

namespace MainApp

theorem firstMissingPlanM_some (db : MDB) (pids : List Nat)
    (h : ∃ p ∈ pids, planExists db p = false) :
    ∃ m, firstMissingPlanM db pids = some m ∧ planExists db m = false := by
  induction pids with
  | nil => simp at h
  | cons q rest ih =>
      by_cases hq : planExists db q
      · rcases h with ⟨p, hp, hfalse⟩
        rcases List.mem_cons.mp hp with hpq | hpr
        · subst hpq
          rw [hfalse] at hq
          simp at hq
        · rcases ih ⟨p, hpr, hfalse⟩ with ⟨m, hm1, hm2⟩
          exact ⟨m, by simp [firstMissingPlanM, hq, hm1], hm2⟩
      · exact ⟨q, by simp [firstMissingPlanM, hq],
          Bool.not_eq_true _ ▸ (by simpa using hq)⟩

theorem firstMissingThoughtM_some (db : MDB) (tids : List Nat)
    (h : ∃ t ∈ tids, thoughtExists db t = false) :
    ∃ m, firstMissingThoughtM db tids = some m ∧ thoughtExists db m = false := by
  induction tids with
  | nil => simp at h
  | cons q rest ih =>
      by_cases hq : thoughtExists db q
      · rcases h with ⟨t, htm, hfalse⟩
        rcases List.mem_cons.mp htm with htq | htr
        · subst htq
          rw [hfalse] at hq
          simp at hq
        · rcases ih ⟨t, htr, hfalse⟩ with ⟨m, hm1, hm2⟩
          exact ⟨m, by simp [firstMissingThoughtM, hq, hm1], hm2⟩
      · exact ⟨q, by simp [firstMissingThoughtM, hq],
          Bool.not_eq_true _ ▸ (by simpa using hq)⟩

end MainApp

/-- C1 (amended): the MCP tool creates are all-or-nothing — when any
referenced id does not resolve, `tpc_server.create_thought`,
`main.add_thought` and `main.create_plan` return an error naming a missing id
and leave the persistent state unchanged.  The REST handler
`POST /api/thoughts`, however, never fails on missing referenced plan ids:
even when none of them exist it still creates and commits the thought row,
adds no associations, and reports success. -/
theorem claim_C1 (content title descr sig : String) (pids tids : List Nat)
    (now : Nat) (db : TpcServer.DB) (mdb : MainApp.MDB) :
    ((∃ p ∈ pids, TpcServer.findPlan db p = none) →
      (TpcServer.create_thought content sig (some pids) now db).2 = db ∧
      ∃ m, TpcServer.findPlan db m = none ∧
        (TpcServer.create_thought content sig (some pids) now db).1 =
          .err s!"Plan with ID {m} not found" 404) ∧
    ((∃ p ∈ pids, MainApp.planExists mdb p = false) →
      (MainApp.addThought content sig (some pids) now mdb).2 = mdb ∧
      ∃ m, MainApp.planExists mdb m = false ∧
        (MainApp.addThought content sig (some pids) now mdb).1 =
          s!"Error: Plan with ID {m} not found") ∧
    ((∃ t ∈ tids, MainApp.thoughtExists mdb t = false) →
      (MainApp.createPlanTool title descr sig (some tids) now mdb).2 = mdb ∧
      ∃ m, MainApp.thoughtExists mdb m = false ∧
        (MainApp.createPlanTool title descr sig (some tids) now mdb).1 =
          s!"Error: Thought with ID {m} not found") ∧
    ((∀ p ∈ pids, MainApp.planExists mdb p = false) →
      (MainApp.createThoughtApi content none (some pids) now mdb).1 =
        MainApp.ApiResult.ok mdb.nextId "Thought created successfully" ∧
      (MainApp.createThoughtApi content none (some pids) now mdb).2.thoughts =
        mdb.thoughts ++ [⟨mdb.nextId, content, "local_user", now, "active"⟩] ∧
      (MainApp.createThoughtApi content none (some pids) now mdb).2.assocs =
        mdb.assocs) := by
  refine ⟨?_, ?_, ?_, ?_⟩
  · intro h
    rcases TpcServer.firstMissingPlan_some db pids h with ⟨m, hm1, hm2⟩
    exact ⟨by simp [TpcServer.create_thought, hm1],
      ⟨m, hm2, by simp [TpcServer.create_thought, hm1]⟩⟩
  · intro h
    rcases MainApp.firstMissingPlanM_some mdb pids h with ⟨m, hm1, hm2⟩
    exact ⟨by simp [MainApp.addThought, hm1],
      ⟨m, hm2, by simp [MainApp.addThought, hm1]⟩⟩
  · intro h
    rcases MainApp.firstMissingThoughtM_some mdb tids h with ⟨m, hm1, hm2⟩
    exact ⟨by simp [MainApp.createPlanTool, hm1],
      ⟨m, hm2, by simp [MainApp.createPlanTool, hm1]⟩⟩
  · intro h
    have hfil : pids.filter (fun p => MainApp.planExists mdb p) = [] := by
      rw [List.filter_eq_nil_iff]
      intro p hp
      simp [h p hp]
    refine ⟨rfl, rfl, ?_⟩
    simp [MainApp.createThoughtApi, hfil]

/-- Witness for C1 at the empty databases with missing referenced ids. -/
theorem claim_C1_witness :
    (TpcServer.create_thought "c" "s" (some [7]) 0 TpcServer.DB.empty).2 =
      TpcServer.DB.empty ∧
    (MainApp.addThought "c" "s" (some [7]) 0 MainApp.MDB.empty).2 =
      MainApp.MDB.empty ∧
    (MainApp.createPlanTool "t" "d" "s" (some [9]) 0 MainApp.MDB.empty).2 =
      MainApp.MDB.empty ∧
    (MainApp.createThoughtApi "c" none (some [7]) 0 MainApp.MDB.empty).2.assocs =
      [] := by
  have h := claim_C1 "c" "t" "d" "s" [7] [9] 0 TpcServer.DB.empty
    MainApp.MDB.empty
  exact ⟨(h.1 ⟨7, by decide, by decide⟩).1,
    (h.2.1 ⟨7, by decide, by decide⟩).1,
    (h.2.2.1 ⟨9, by decide, by decide⟩).1,
    (h.2.2.2 (by decide)).2.2⟩

namespace MainApp

theorem insertByTsDesc_perm (t : MThought) (l : List MThought) :
    (insertByTsDesc t l).Perm (t :: l) := by
  induction l with
  | nil => exact List.Perm.refl _
  | cons h rest ih =>
      by_cases hc : h.created_at ≤ t.created_at
      · simp [insertByTsDesc, hc]
      · simp only [insertByTsDesc, hc, if_false]
        exact (ih.cons h).trans (List.Perm.swap t h rest)

theorem sortByTsDesc_perm (l : List MThought) : (sortByTsDesc l).Perm l := by
  induction l with
  | nil => exact List.Perm.refl _
  | cons h rest ih =>
      exact (insertByTsDesc_perm h (sortByTsDesc rest)).trans (ih.cons h)

theorem pairwise_insertByTsDesc (t : MThought) (l : List MThought)
    (hl : l.Pairwise (fun x y => y.created_at ≤ x.created_at)) :
    (insertByTsDesc t l).Pairwise (fun x y => y.created_at ≤ x.created_at) := by
  induction l with
  | nil => simp [insertByTsDesc]
  | cons h rest ih =>
      rcases List.pairwise_cons.mp hl with ⟨hhead, htail⟩
      by_cases hc : h.created_at ≤ t.created_at
      · simp only [insertByTsDesc, hc, if_true]
        refine List.pairwise_cons.mpr ⟨?_, hl⟩
        intro x hx
        rcases List.mem_cons.mp hx with hxh | hxr
        · subst hxh; exact hc
        · exact le_trans (hhead x hxr) hc
      · simp only [insertByTsDesc, hc, if_false]
        refine List.pairwise_cons.mpr ⟨?_, ih htail⟩
        intro x hx
        have hx2 := (insertByTsDesc_perm t rest).mem_iff.mp hx
        rcases List.mem_cons.mp hx2 with hxt | hxr
        · subst hxt; exact le_of_lt (Nat.lt_of_not_le hc)
        · exact hhead x hxr

theorem sortByTsDesc_sorted (l : List MThought) :
    (sortByTsDesc l).Pairwise (fun x y => y.created_at ≤ x.created_at) := by
  induction l with
  | nil => simp [sortByTsDesc]
  | cons h rest ih => exact pairwise_insertByTsDesc h (sortByTsDesc rest) ih

end MainApp

/-- C4 (amended): `GET /api/thoughts` in `main.py` lists the thoughts newest
first by `created_at` descending only (no id tiebreaker — the order of rows
with equal timestamps is left to the engine): every page of its output is
sorted by timestamp descending, the full first page is a permutation of the
whole table, and for three thoughts with distinct timestamps t1 < t2 < t3 the
full listing is [t3, t2, t1] while page 2 with limit 1 (= offset 1, limit 1)
returns [t2].  (The `tpc_server.py` list resources apply no ordering at
all — see the counterexample.) -/
theorem claim_C4 (db : MainApp.MDB) (page limit n : Nat)
    (a b c : MainApp.MThought) (ps : List MainApp.MPlan)
    (cs : List MainApp.MChange) (asso : List MainApp.MAssoc)
    (hab : a.created_at < b.created_at) (hbc : b.created_at < c.created_at) :
    ((MainApp.getAllThoughts page limit db).data).Pairwise
        (fun x y => y.created_at ≤ x.created_at) ∧
    ((MainApp.getAllThoughts 1 db.thoughts.length db).data).Perm db.thoughts ∧
    (MainApp.getAllThoughts 1 10 ⟨[a, b, c], ps, cs, asso, n⟩).data =
      [c, b, a] ∧
    (MainApp.getAllThoughts 2 1 ⟨[a, b, c], ps, cs, asso, n⟩).data = [b] := by
  have hsort3 : MainApp.sortByTsDesc [a, b, c] = [c, b, a] := by
    simp [MainApp.sortByTsDesc, MainApp.insertByTsDesc,
      Nat.not_le.mpr hab, Nat.not_le.mpr hbc,
      Nat.not_le.mpr (lt_trans hab hbc)]
  refine ⟨?_, ?_, ?_, ?_⟩
  · have hs := MainApp.sortByTsDesc_sorted db.thoughts
    have hsub : (MainApp.getAllThoughts page limit db).data.Sublist
        (MainApp.sortByTsDesc db.thoughts) := by
      simpa [MainApp.getAllThoughts] using
        ((MainApp.sortByTsDesc db.thoughts).drop
            ((page - 1) * limit)).take_sublist limit
          |>.trans (List.drop_sublist _ _)
    exact hs.sublist hsub
  · have hlen : (MainApp.sortByTsDesc db.thoughts).length =
        db.thoughts.length := (MainApp.sortByTsDesc_perm db.thoughts).length_eq
    have : (MainApp.getAllThoughts 1 db.thoughts.length db).data =
        MainApp.sortByTsDesc db.thoughts := by
      simp [MainApp.getAllThoughts, List.take_of_length_le, hlen.le]
    rw [this]
    exact MainApp.sortByTsDesc_perm db.thoughts
  · simp [MainApp.getAllThoughts, hsort3]
  · simp [MainApp.getAllThoughts, hsort3]

/-- Witness for C4 at three concrete thoughts with timestamps 1 < 2 < 3. -/
theorem claim_C4_witness :
    (MainApp.getAllThoughts 1 10
        (⟨[⟨1, "x", "sg", 1, "active"⟩, ⟨2, "y", "sg", 2, "active"⟩,
           ⟨3, "z", "sg", 3, "active"⟩], [], [], [], 4⟩ :
          MainApp.MDB)).data =
      [⟨3, "z", "sg", 3, "active"⟩, ⟨2, "y", "sg", 2, "active"⟩,
       ⟨1, "x", "sg", 1, "active"⟩] ∧
    (MainApp.getAllThoughts 2 1
        (⟨[⟨1, "x", "sg", 1, "active"⟩, ⟨2, "y", "sg", 2, "active"⟩,
           ⟨3, "z", "sg", 3, "active"⟩], [], [], [], 4⟩ :
          MainApp.MDB)).data = [⟨2, "y", "sg", 2, "active"⟩] := by
  have h := claim_C4 MainApp.MDB.empty 1 1 4
    ⟨1, "x", "sg", 1, "active"⟩ ⟨2, "y", "sg", 2, "active"⟩
    ⟨3, "z", "sg", 3, "active"⟩ [] [] [] (by decide) (by decide)
  exact ⟨h.2.2.1, h.2.2.2⟩

/-- C5 (amended): the single-pair associate and disassociate tools require
both ids to exist, fail with a 404 identifying the missing id, and write
nothing in that case; the bulk-associate endpoint, by contrast, inserts an
association row for any not-yet-linked pair without checking that either id
exists. -/
theorem claim_C5 (tid pid now : Nat) (db : TpcServer.DB)
    (mdb : MainApp.MDB) :
    (TpcServer.findThought db tid = none →
      TpcServer.associate_thought_with_plan tid pid db =
        (.err s!"Thought with ID {tid} not found" 404, db) ∧
      TpcServer.disassociate_thought_from_plan tid pid db =
        (.err s!"Thought with ID {tid} not found" 404, db)) ∧
    ((TpcServer.findThought db tid).isSome = true →
      TpcServer.findPlan db pid = none →
      TpcServer.associate_thought_with_plan tid pid db =
        (.err s!"Plan with ID {pid} not found" 404, db) ∧
      TpcServer.disassociate_thought_from_plan tid pid db =
        (.err s!"Plan with ID {pid} not found" 404, db)) ∧
    (MainApp.assocPairExists mdb tid pid = false →
      (MainApp.bulkAssociateThoughts [tid] [pid] now mdb).1 = 1 ∧
      (MainApp.bulkAssociateThoughts [tid] [pid] now mdb).2.assocs =
        mdb.assocs ++ [⟨tid, pid, now, "local_user"⟩]) := by
  refine ⟨?_, ?_, ?_⟩
  · intro h
    exact ⟨by simp [TpcServer.associate_thought_with_plan, h],
      by simp [TpcServer.disassociate_thought_from_plan, h]⟩
  · intro ht hp
    rcases Option.isSome_iff_exists.mp ht with ⟨t, htEq⟩
    exact ⟨by simp [TpcServer.associate_thought_with_plan, htEq, hp],
      by simp [TpcServer.disassociate_thought_from_plan, htEq, hp]⟩
  · intro h
    constructor
    · simp [MainApp.bulkAssociateThoughts, h]
    · simp [MainApp.bulkAssociateThoughts, h]

/-- Witness for C5: missing ids at the empty databases. -/
theorem claim_C5_witness :
    TpcServer.associate_thought_with_plan 4 6 TpcServer.DB.empty =
      (.err s!"Thought with ID 4 not found" 404, TpcServer.DB.empty) ∧
    (MainApp.bulkAssociateThoughts [4] [6] 0 MainApp.MDB.empty).2.assocs =
      [⟨4, 6, 0, "local_user"⟩] := by
  have h := claim_C5 4 6 0 TpcServer.DB.empty MainApp.MDB.empty
  exact ⟨(h.1 rfl).1, (h.2.2 rfl).2⟩

namespace MainApp

theorem logChangesBulk_go (items : List BulkChangeItem) (now : Nat)
    (rs : List String) (db : MDB) :
    items.foldl (logChangesBulkStep now) (rs, db) =
      (rs ++ bulkResultEntries db.plans db.nextId items,
       { db with
           changes := db.changes ++ bulkNewChanges db.plans db.nextId now items
           nextId := db.nextId + bulkSuccCount db.plans items }) := by
  induction items generalizing rs db with
  | nil => simp [bulkResultEntries, bulkNewChanges, bulkSuccCount]
  | cons it rest ih =>
      by_cases h : planExists db it.plan_id
      · simp only [List.foldl_cons, logChangesBulkStep, h, if_true]
        rw [ih]
        simp [bulkResultEntries, bulkNewChanges, bulkSuccCount, planExists, h,
          List.filter_cons, List.append_assoc]
        constructor
        · simp [planExists] at h
          simp [h]
        · constructor
          · simp [planExists] at h
            simp [h]
          · simp [planExists] at h
            simp [h]
            omega
      · simp only [List.foldl_cons, logChangesBulkStep, h, if_false]
        rw [ih]
        have h2 : ¬ (db.plans.any (fun p => p.id == it.plan_id) = true) := h
        simp [bulkResultEntries, bulkNewChanges, bulkSuccCount,
          List.filter_cons, h2, List.append_assoc]

end MainApp

/-- C9: `log_changes_bulk` is best-effort per item, not all-or-nothing: the
result list carries, in input order, one "Error: Plan ... not found" entry
per item whose plan id is missing and one "Logged change" entry per item
whose plan exists, and exactly the latter items are inserted as change rows
and committed in the same call (the plans table itself is untouched). -/
theorem claim_C9 (items : List MainApp.BulkChangeItem) (now : Nat)
    (db : MainApp.MDB) :
    (MainApp.logChangesBulk items now db).1 =
      MainApp.bulkResultEntries db.plans db.nextId items ∧
    (MainApp.logChangesBulk items now db).2.changes =
      db.changes ++ MainApp.bulkNewChanges db.plans db.nextId now items ∧
    (MainApp.logChangesBulk items now db).2.plans = db.plans := by
  have h := MainApp.logChangesBulk_go items now [] db
  unfold MainApp.logChangesBulk
  rw [h]
  exact ⟨by simp, rfl, rfl⟩

namespace Auth

theorem hybridNoAgent_chain (env : AuthEnv) (req : HybridRequest) :
    hybridNoAgent env req =
      match firstSome [checkPublicGuest req, checkApiKey env req,
                       checkBearer env req, checkCookie env req] with
      | some p => .ok p
      | none => .reject 401 "Authentication failed" := by
  by_cases hg : req.path ∈ publicPaths ∧ req.method = "GET"
  · simp [hybridNoAgent, checkPublicGuest, firstSome, hg]
  · cases hapi : validateApiKey env req with
    | some u =>
        simp [hybridNoAgent, checkPublicGuest, checkApiKey, firstSome, hg, hapi]
    | none =>
        cases hb : bearerUser env req with
        | some u =>
            simp [hybridNoAgent, checkPublicGuest, checkApiKey, checkBearer,
              firstSome, hg, hapi, hb]
        | none =>
            cases hc : req.cookie_token with
            | none =>
                simp [hybridNoAgent, checkPublicGuest, checkApiKey, checkBearer,
                  checkCookie, firstSome, hg, hapi, hb, hc]
            | some ct =>
                cases hu : getCurrentUserTok env ct with
                | some u =>
                    simp [hybridNoAgent, checkPublicGuest, checkApiKey,
                      checkBearer, checkCookie, firstSome, hg, hapi, hb, hc, hu]
                | none =>
                    simp [hybridNoAgent, checkPublicGuest, checkApiKey,
                      checkBearer, checkCookie, firstSome, hg, hapi, hb, hc, hu]

end Auth

/-- C6 (amended): `get_current_user_hybrid` is exactly an ordered
authenticator chain evaluated in a single pass with first-success-wins and a
constant rejection `401 "Authentication failed"` that names no individual
method — but the chain has five members, not three: pre-set agent id, then an
anonymous guest principal for public GET paths, then API-key lookup, then
bearer-token verification, then a cookie access-token fallback. -/
theorem claim_C6 (env : Auth.AuthEnv) (req : Auth.HybridRequest) :
    Auth.getCurrentUserHybrid env req = Auth.hybridChainSpec env req := by
  unfold Auth.getCurrentUserHybrid Auth.hybridChainSpec
  cases hA : req.state_agent_id with
  | none =>
      rw [Auth.hybridNoAgent_chain]
      simp [Auth.checkAgent, hA, Auth.firstSome]
  | some aid =>
      by_cases hE : aid = ""
      · rw [Auth.hybridNoAgent_chain]
        simp [Auth.checkAgent, hA, hE, Auth.firstSome]
      · simp [Auth.checkAgent, hA, hE, Auth.firstSome]

/-- Counterexample to C6 as stated: a request carrying no agent id, an API
key that fails verification, and no Authorization header — all three methods
named by the claim fail — is nonetheless authenticated through the cookie
access-token fallback instead of being rejected. -/
theorem claim_C6_counterexample :
    Auth.checkAgent
      (⟨none, "POST", "/api/plans", some "badkey", none, some "cookietok"⟩ :
        Auth.HybridRequest) = none ∧
    Auth.checkApiKey
      (⟨fun _ _ => false,
        fun t => if t == "cookietok" then some (some "alice") else none,
        [⟨"h1", "u1", "user", false⟩], [⟨"u1", "alice", "user"⟩]⟩ :
        Auth.AuthEnv)
      (⟨none, "POST", "/api/plans", some "badkey", none, some "cookietok"⟩ :
        Auth.HybridRequest) = none ∧
    Auth.checkBearer
      (⟨fun _ _ => false,
        fun t => if t == "cookietok" then some (some "alice") else none,
        [⟨"h1", "u1", "user", false⟩], [⟨"u1", "alice", "user"⟩]⟩ :
        Auth.AuthEnv)
      (⟨none, "POST", "/api/plans", some "badkey", none, some "cookietok"⟩ :
        Auth.HybridRequest) = none ∧
    Auth.getCurrentUserHybrid
      (⟨fun _ _ => false,
        fun t => if t == "cookietok" then some (some "alice") else none,
        [⟨"h1", "u1", "user", false⟩], [⟨"u1", "alice", "user"⟩]⟩ :
        Auth.AuthEnv)
      (⟨none, "POST", "/api/plans", some "badkey", none, some "cookietok"⟩ :
        Auth.HybridRequest) =
      .ok (.user "alice" "user") := by
  refine ⟨rfl, rfl, rfl, ?_⟩
  rfl


namespace Auth

theorem splitFirstColonAux_sound (l : List Char) :
    ∀ a b, splitFirstColonAux l = some (a, b) → ':' ∉ a ∧ l = a ++ ':' :: b := by
  induction l with
  | nil => intro a b h; simp [splitFirstColonAux] at h
  | cons c rest ih =>
      intro a b h
      by_cases hc : c = ':'
      · subst hc
        simp only [splitFirstColonAux, if_pos rfl, Option.some.injEq,
          Prod.mk.injEq] at h
        rcases h with ⟨rfl, rfl⟩
        exact ⟨by simp, rfl⟩
      · simp only [splitFirstColonAux, if_neg hc] at h
        cases haux : splitFirstColonAux rest with
        | none => rw [haux] at h; simp at h
        | some ab =>
            obtain ⟨a0, b0⟩ := ab
            rw [haux] at h
            simp only [Option.map_some', Option.some.injEq, Prod.mk.injEq] at h
            rcases h with ⟨rfl, rfl⟩
            obtain ⟨hn, he⟩ := ih a0 b0 haux
            constructor
            · intro hm
              rcases List.mem_cons.mp hm with h' | h'
              · exact hc h'.symm
              · exact hn h'
            · simp [he]

theorem splitFirstColonAux_complete (a b : List Char) (hn : ':' ∉ a) :
    splitFirstColonAux (a ++ ':' :: b) = some (a, b) := by
  induction a with
  | nil => simp [splitFirstColonAux]
  | cons x a' ih =>
      have hx : ¬ x = ':' := by
        intro e
        exact hn (by simp [e])
      have hn' : ':' ∉ a' := fun hm => hn (List.mem_cons_of_mem _ hm)
      simp [splitFirstColonAux, hx, ih hn']

theorem signatureAuth_credNone (hmacHex : String → String → String)
    (secrets : List (String × String)) (req : SigRequest)
    (h : req.credentials = none) :
    signatureAuth hmacHex secrets req = .err 403 "Not authenticated" := by
  unfold signatureAuth
  rw [h]

theorem signatureAuth_credSome (hmacHex : String → String → String)
    (secrets : List (String × String)) (req : SigRequest) (cred : String)
    (h : req.credentials = some cred) :
    signatureAuth hmacHex secrets req =
      match splitFirstColon cred with
      | none => .err 401 "Invalid credential format"
      | some (aid, sig) =>
          match secrets.lookup aid with
          | none => .err 401 "Unknown agent ID"
          | some secret =>
              if sig == hmacHex secret (sigPayload req) then .ok aid
              else .err 401 "Invalid signature" := by
  unfold signatureAuth
  rw [h]

theorem signatureAuth_eval (hmacHex : String → String → String)
    (secrets : List (String × String)) (req : SigRequest) (cred x y : String)
    (h : req.credentials = some cred)
    (hs : splitFirstColon cred = some (x, y)) :
    signatureAuth hmacHex secrets req =
      match secrets.lookup x with
      | none => .err 401 "Unknown agent ID"
      | some secret =>
          if y == hmacHex secret (sigPayload req) then .ok x
          else .err 401 "Invalid signature" := by
  rw [signatureAuth_credSome hmacHex secrets req cred h, hs]

end Auth

/-- C10: the signature authenticator accepts a request exactly when its
bearer credential splits at the first colon into a colon-free agent id that
is registered in the agent-secret table and a signature equal to the HMAC
digest (under that agent's secret) of the concatenation of method, path and
body; and whenever a bearer credential is present, every non-accepting
outcome is a 401 error. -/
theorem claim_C10 (hmacHex : String → String → String)
    (secrets : List (String × String)) (req : Auth.SigRequest) :
    (∀ aid, Auth.signatureAuth hmacHex secrets req = .ok aid ↔
      ∃ cred sig secret,
        req.credentials = some cred ∧
        ':' ∉ aid.data ∧
        cred = aid ++ ":" ++ sig ∧
        secrets.lookup aid = some secret ∧
        sig = hmacHex secret (Auth.sigPayload req)) ∧
    (∀ cred, req.credentials = some cred →
      (∃ aid, Auth.signatureAuth hmacHex secrets req = .ok aid) ∨
      (∃ d, Auth.signatureAuth hmacHex secrets req = .err 401 d)) := by
  constructor
  · intro aid
    constructor
    · intro h
      cases hcred : req.credentials with
      | none => rw [Auth.signatureAuth_credNone hmacHex secrets req hcred] at h; simp at h
      | some cred =>
          cases hsplit : Auth.splitFirstColon cred with
          | none =>
              rw [Auth.signatureAuth_credSome hmacHex secrets req cred hcred,
                hsplit] at h
              simp at h
          | some xy =>
              obtain ⟨x, y⟩ := xy
              rw [Auth.signatureAuth_eval hmacHex secrets req cred x y hcred
                hsplit] at h
              cases hlk : secrets.lookup x with
              | none => rw [hlk] at h; simp at h
              | some secret =>
                  rw [hlk] at h
                  by_cases heq : y = hmacHex secret (Auth.sigPayload req)
                  · have hxa : x = aid := by simpa [heq] using h
                    subst hxa
                    unfold Auth.splitFirstColon at hsplit
                    cases haux : Auth.splitFirstColonAux cred.data with
                    | none => rw [haux] at hsplit; simp at hsplit
                    | some ab =>
                        obtain ⟨a0, b0⟩ := ab
                        rw [haux] at hsplit
                        simp only [Option.map_some', Option.some.injEq,
                          Prod.mk.injEq] at hsplit
                        obtain ⟨hx1, hy1⟩ := hsplit
                        subst hx1
                        subst hy1
                        obtain ⟨hnc, hdec⟩ :=
                          Auth.splitFirstColonAux_sound cred.data a0 b0 haux
                        refine ⟨cred, String.mk b0, secret, rfl, hnc, ?_, hlk,
                          heq⟩
                        apply String.ext
                        rw [hdec]
                        simp [String.data_append]
                  · simp [heq] at h
    · rintro ⟨cred, sig, secret, hcred, hnc, hdec, hlk, hsig⟩
      have hdata : cred.data = aid.data ++ ':' :: sig.data := by
        rw [hdec]
        simp [String.data_append]
      have hsplit : Auth.splitFirstColon cred = some (aid, sig) := by
        unfold Auth.splitFirstColon
        rw [hdata, Auth.splitFirstColonAux_complete aid.data sig.data hnc]
        rfl
      rw [Auth.signatureAuth_eval hmacHex secrets req cred aid sig hcred
        hsplit, hlk]
      simp [hsig]
  · intro cred hcred
    cases hsplit : Auth.splitFirstColon cred with
    | none =>
        refine Or.inr ⟨"Invalid credential format", ?_⟩
        rw [Auth.signatureAuth_credSome hmacHex secrets req cred hcred, hsplit]
    | some xy =>
        obtain ⟨x, y⟩ := xy
        cases hlk : secrets.lookup x with
        | none =>
            refine Or.inr ⟨"Unknown agent ID", ?_⟩
            rw [Auth.signatureAuth_eval hmacHex secrets req cred x y hcred
              hsplit, hlk]
        | some secret =>
            by_cases heq : y = hmacHex secret (Auth.sigPayload req)
            · refine Or.inl ⟨x, ?_⟩
              rw [Auth.signatureAuth_eval hmacHex secrets req cred x y hcred
                hsplit, hlk]
              simp [heq]
            · refine Or.inr ⟨"Invalid signature", ?_⟩
              rw [Auth.signatureAuth_eval hmacHex secrets req cred x y hcred
                hsplit, hlk]
              simp [heq]

/-- Witness for C10: the concrete agent "bot" with secret "k" is accepted
when its credential carries the digest of "POST" ++ "/x" ++ "b" under "k". -/
theorem claim_C10_witness :
    Auth.signatureAuth (fun sec p => sec ++ "|" ++ p) [("bot", "k")]
        (⟨"POST", "/x", "b", some "bot:k|POST/xb"⟩ : Auth.SigRequest) =
      .ok "bot" :=
  ((claim_C10 (fun sec p => sec ++ "|" ++ p) [("bot", "k")]
      (⟨"POST", "/x", "b", some "bot:k|POST/xb"⟩ : Auth.SigRequest)).1
    "bot").mpr
    ⟨"bot:k|POST/xb", "k|POST/xb", "k", rfl, by decide, by decide, rfl,
      by decide⟩

namespace Cursor

theorem kLt_iff (a b : Nat × Nat) :
    kLt a b = true ↔ (b.1 < a.1 ∨ (a.1 = b.1 ∧ a.2 < b.2)) := by
  simp [kLt]

theorem kLt_irrefl (k : Nat × Nat) : kLt k k = false := by
  simp [kLt]

theorem kLt_asymm {a b : Nat × Nat} (h : kLt a b = true) : kLt b a = false := by
  rw [kLt_iff] at h
  rw [Bool.eq_false_iff]
  intro h2
  rw [kLt_iff] at h2
  omega

theorem keyLe_iff (a b : Row) : keyLe a b = true ↔
    (b.ts < a.ts ∨ (a.ts = b.ts ∧ a.rid ≤ b.rid)) := by
  simp [keyLe, kLt, rkey, Prod.ext_iff]
  omega

theorem keyLe_total (a b : Row) : keyLe a b = true ∨ keyLe b a = true := by
  rw [keyLe_iff, keyLe_iff]
  omega

theorem keyLe_trans {a b c : Row} (h1 : keyLe a b = true)
    (h2 : keyLe b c = true) : keyLe a c = true := by
  rw [keyLe_iff] at h1 h2 ⊢
  omega

theorem kLt_of_keyLe_ne {a b : Row} (h1 : keyLe a b = true)
    (h2 : rkey a ≠ rkey b) : kLt (rkey a) (rkey b) = true := by
  have h3 : kLt (rkey a) (rkey b) = true ∨ rkey a = rkey b := by
    have h4 := h1
    unfold keyLe at h4
    simpa using h4
  rcases h3 with h | h
  · exact h
  · exact absurd h h2

theorem insertRow_perm (a : Row) (l : List Row) :
    (insertRow a l).Perm (a :: l) := by
  induction l with
  | nil => exact List.Perm.refl _
  | cons b l ih =>
      by_cases hab : keyLe a b = true
      · simp [insertRow, hab]
      · simp only [insertRow, hab, if_false]
        exact (ih.cons b).trans (List.Perm.swap a b l)

theorem sortRows_perm (l : List Row) : (sortRows l).Perm l := by
  induction l with
  | nil => exact List.Perm.refl _
  | cons a l ih => exact (insertRow_perm a (sortRows l)).trans (ih.cons a)

theorem pairwise_le_insertRow (a : Row) (l : List Row)
    (hl : l.Pairwise (fun x y => keyLe x y = true)) :
    (insertRow a l).Pairwise (fun x y => keyLe x y = true) := by
  induction l with
  | nil => simp [insertRow]
  | cons b l ih =>
      rcases List.pairwise_cons.mp hl with ⟨hb, hl'⟩
      by_cases hab : keyLe a b = true
      · simp only [insertRow, hab, if_true]
        refine List.pairwise_cons.mpr ⟨?_, hl⟩
        intro x hx
        rcases List.mem_cons.mp hx with hxb | hxl
        · subst hxb; exact hab
        · exact keyLe_trans hab (hb x hxl)
      · have hba : keyLe b a = true := (keyLe_total a b).resolve_left hab
        simp only [insertRow, hab, if_false]
        refine List.pairwise_cons.mpr ⟨?_, ih hl'⟩
        intro x hx
        have hx2 := (insertRow_perm a l).mem_iff.mp hx
        rcases List.mem_cons.mp hx2 with hxa | hxl
        · subst hxa; exact hba
        · exact hb x hxl

theorem sortRows_pairwise_le (l : List Row) :
    (sortRows l).Pairwise (fun x y => keyLe x y = true) := by
  induction l with
  | nil => simp [sortRows]
  | cons a l ih => exact pairwise_le_insertRow a (sortRows l) ih

theorem sortRows_strict (l : List Row)
    (h : l.Pairwise (fun x y => rkey x ≠ rkey y)) :
    StrictSorted (sortRows l) := by
  have hle := sortRows_pairwise_le l
  have hne : (sortRows l).Pairwise (fun x y => rkey x ≠ rkey y) :=
    h.perm (sortRows_perm l).symm (fun hxy => Ne.symm hxy)
  exact (hle.and hne).imp (fun hh => kLt_of_keyLe_ne hh.1 hh.2)

theorem insertRow_eq_cons (a : Row) (s : List Row)
    (h : ∀ x ∈ s, keyLe a x = true) : insertRow a s = a :: s := by
  cases s with
  | nil => rfl
  | cons x s2 => simp [insertRow, h x (by simp)]

theorem filter_insertRow (p : Row → Bool) (a : Row) (l : List Row)
    (hl : l.Pairwise (fun x y => keyLe x y = true)) :
    (insertRow a l).filter p =
      if p a then insertRow a (l.filter p) else l.filter p := by
  induction l with
  | nil => by_cases hp : p a = true <;> simp [insertRow, hp]
  | cons b l ih =>
      rcases List.pairwise_cons.mp hl with ⟨hb, hl'⟩
      by_cases hab : keyLe a b = true
      · simp only [insertRow, hab, if_true]
        by_cases hp : p a = true
        · rw [if_pos hp, insertRow_eq_cons]
          · simp [List.filter_cons, hp]
          · intro x hx
            have hx2 := List.mem_of_mem_filter hx
            rcases List.mem_cons.mp hx2 with hxb | hxl
            · subst hxb; exact hab
            · exact keyLe_trans hab (hb x hxl)
        · simp [List.filter_cons, hp]
      · simp only [insertRow]
        rw [if_neg hab, List.filter_cons, List.filter_cons]
        by_cases hp : p a = true
        · by_cases hpb : p b = true
          · simp only [hp, hpb, if_true]
            rw [ih hl']
            simp [insertRow, hab, hp]
          · simp only [hp, hpb, if_false]
            rw [ih hl']
            simp [hp]
        · by_cases hpb : p b = true
          · simp only [hp, hpb, if_true, if_false]
            rw [ih hl']
            simp [hp]
          · simp only [hp, hpb, if_false]
            rw [ih hl']
            simp [hp]

theorem filter_sortRows (p : Row → Bool) (l : List Row) :
    (sortRows l).filter p = sortRows (l.filter p) := by
  induction l with
  | nil => rfl
  | cons a l ih =>
      show (insertRow a (sortRows l)).filter p = sortRows ((a :: l).filter p)
      rw [filter_insertRow p a (sortRows l) (sortRows_pairwise_le l),
        List.filter_cons]
      by_cases hp : p a = true
      · simp only [hp, if_true]
        rw [ih]
        rfl
      · simp only [hp, if_false]
        exact ih

theorem filter_after_boundary (pre : List Row) (x : Row) (suf : List Row)
    (hs : StrictSorted (pre ++ x :: suf)) :
    (pre ++ x :: suf).filter (fun r => kLt (rkey x) (rkey r)) = suf := by
  rcases List.pairwise_append.mp hs with ⟨h1, h2, h3⟩
  rcases List.pairwise_cons.mp h2 with ⟨hx, h4⟩
  rw [List.filter_append]
  have hpre : pre.filter (fun r => kLt (rkey x) (rkey r)) = [] := by
    rw [List.filter_eq_nil_iff]
    intro r hr
    have hrx : kLt (rkey r) (rkey x) = true := h3 r hr x (by simp)
    simp [kLt_asymm hrx]
  rw [hpre, List.nil_append, List.filter_cons]
  have hxx : ¬ (kLt (rkey x) (rkey x) = true) := by simp [kLt_irrefl]
  rw [if_neg hxx, List.filter_eq_self]
  exact fun b hb => hx b hb

end Cursor

namespace Cursor

theorem collectGo_suffix (l : List Row) (hs : StrictSorted l) (m : Nat) :
    ∀ fuel (s pre : List Row) (c : Option (Nat × Nat)),
      l = pre ++ s → afterCursor c l = s → s.length ≤ fuel →
      collectGo l (m + 1) fuel c = s := by
  intro fuel
  induction fuel with
  | zero =>
      intro s pre c hdec hafter hlen
      have hnil : s = [] := List.length_eq_zero.mp (Nat.le_zero.mp hlen)
      subst hnil
      rfl
  | succ fuel ih =>
      intro s pre c hdec hafter hlen
      by_cases hsmall : s.length ≤ m + 1
      · have hpage : pageOf l (m + 1) c = ⟨s.take (m + 1), none⟩ := by
          simp [pageOf, hafter, hsmall]
        have hval : collectGo l (m + 1) (fuel + 1) c = s.take (m + 1) := by
          simp [collectGo, hpage]
        rw [hval, List.take_of_length_le hsmall]
      · have hnotsmall : ¬ (s.length ≤ m + 1) := hsmall
        have hm : m < s.length := by omega
        have hget : s[m]? = some s[m] := List.getElem?_eq_getElem hm
        have htake : s.take (m + 1) = s.take m ++ [s[m]] := by
          rw [List.take_succ, hget]
          rfl
        have hlast : (s.take (m + 1)).getLast? = some s[m] := by
          rw [htake]
          exact List.getLast?_concat _
        have hpage : pageOf l (m + 1) c =
            ⟨s.take (m + 1), some (rkey s[m])⟩ := by
          simp [pageOf, hafter, hnotsmall, hlast]
        have hdecomp2 : l = (pre ++ s.take m) ++ s[m] :: s.drop (m + 1) := by
          rw [hdec, List.append_assoc]
          congr 1
          rw [← List.drop_eq_getElem_cons hm]
          exact (List.take_append_drop m s).symm
        have hafter2 : afterCursor (some (rkey s[m])) l = s.drop (m + 1) := by
          show l.filter (fun r => kLt (rkey s[m]) (rkey r)) = s.drop (m + 1)
          rw [hdecomp2]
          exact filter_after_boundary _ _ _ (hdecomp2 ▸ hs)
        have hlen2 : (s.drop (m + 1)).length ≤ fuel := by
          rw [List.length_drop]
          omega
        have hdec3 : l = (pre ++ s.take m ++ [s[m]]) ++ s.drop (m + 1) := by
          rw [hdecomp2]
          simp [List.append_assoc]
        have hrec := ih (s.drop (m + 1)) (pre ++ s.take m ++ [s[m]])
          (some (rkey s[m])) hdec3 hafter2 hlen2
        have hstep : collectGo l (m + 1) (fuel + 1) c =
            s.take (m + 1) ++ collectGo l (m + 1) fuel (some (rkey s[m])) := by
          simp [collectGo, hpage]
        rw [hstep, hrec, List.take_append_drop]

theorem collectPages_partition (T : List Row) (m : Nat)
    (hkeys : T.Pairwise (fun x y => rkey x ≠ rkey y)) :
    collectPages T (m + 1) (T.length + 1) = get_all T := by
  have hs := sortRows_strict T hkeys
  have hlen := (sortRows_perm T).length_eq
  unfold collectPages get_all
  exact collectGo_suffix (sortRows T) hs m (T.length + 1) (sortRows T) []
    none rfl rfl (by rw [hlen]; omega)

theorem get_with_cursor_stable (T N : List Row) (n t i : Nat)
    (hcur : (t, i) ∈ T.map rkey)
    (hnew : ∀ x ∈ N, ∀ y ∈ T, y.ts < x.ts) :
    get_with_cursor (T ++ N) n (some (t, i)) =
      get_with_cursor T n (some (t, i)) := by
  have hfil : (sortRows (T ++ N)).filter (fun r => kLt (t, i) (rkey r)) =
      (sortRows T).filter (fun r => kLt (t, i) (rkey r)) := by
    rw [filter_sortRows, filter_sortRows, List.filter_append]
    have hN : N.filter (fun r => kLt (t, i) (rkey r)) = [] := by
      rw [List.filter_eq_nil_iff]
      intro x hx
      rcases List.mem_map.mp hcur with ⟨y, hyT, hyk⟩
      have hlt := hnew x hx y hyT
      have hyts : y.ts = t := by
        have h5 := congrArg Prod.fst hyk
        simpa [rkey] using h5
      simp [kLt, rkey]
      omega
    rw [hN, List.append_nil]
  unfold get_with_cursor pageOf
  simp only [afterCursor]
  rw [hfil]

end Cursor

/-- C7 (spec-modelled: no cursor-paginated read exists under `src/`; the
model follows spec §4.1/§8): for any page size, following `next_cursor` from
the first page until null concatenates to exactly the unpaginated newest-first
listing `get_all` — same rows, same order, no duplicates, no omissions (the
listing itself being a permutation of the table); and a page requested after
rows with strictly later timestamps were inserted equals the page computed on
the original table, so already-issued cursors are never shifted by such
inserts. -/
theorem claim_C7 (T N : List Cursor.Row) (m t i : Nat)
    (hkeys : T.Pairwise (fun x y => Cursor.rkey x ≠ Cursor.rkey y))
    (hcur : (t, i) ∈ T.map Cursor.rkey)
    (hnew : ∀ x ∈ N, ∀ y ∈ T, y.ts < x.ts) :
    Cursor.collectPages T (m + 1) (T.length + 1) = Cursor.get_all T ∧
    (Cursor.get_all T).Perm T ∧
    Cursor.get_with_cursor (T ++ N) (m + 1) (some (t, i)) =
      Cursor.get_with_cursor T (m + 1) (some (t, i)) :=
  ⟨Cursor.collectPages_partition T m hkeys, Cursor.sortRows_perm T,
   Cursor.get_with_cursor_stable T N (m + 1) t i hcur hnew⟩

/-- Witness for C7: three rows (one timestamp tie broken by id), page size 1,
one later-timestamp insert, cursor at row (2, 2). -/
theorem claim_C7_witness :
    Cursor.collectPages [⟨1, 1⟩, ⟨2, 2⟩, ⟨1, 3⟩] 1 4 =
      Cursor.get_all [⟨1, 1⟩, ⟨2, 2⟩, ⟨1, 3⟩] ∧
    (Cursor.get_all [⟨1, 1⟩, ⟨2, 2⟩, ⟨1, 3⟩]).Perm
      [⟨1, 1⟩, ⟨2, 2⟩, ⟨1, 3⟩] ∧
    Cursor.get_with_cursor ([⟨1, 1⟩, ⟨2, 2⟩, ⟨1, 3⟩] ++ [⟨5, 9⟩]) 1
        (some (2, 2)) =
      Cursor.get_with_cursor [⟨1, 1⟩, ⟨2, 2⟩, ⟨1, 3⟩] 1 (some (2, 2)) :=
  claim_C7 [⟨1, 1⟩, ⟨2, 2⟩, ⟨1, 3⟩] [⟨5, 9⟩] 0 2 2 (by decide) (by decide)
    (by decide)
